import Mathlib

/-!
Verification of the Sui NFT event-listener WebSocket server
(src/src/websocketServer.js) against its natural-language specification.

The JavaScript source is shallowly embedded below: the mutable module
state (the set of seen transaction hashes, the client map) becomes
explicit state passed through pure functions; the upstream HTTP fetch
becomes an oracle value of type Option (List NftEvent), where none
models every failure path of fetchNftEvents (network error, non-2xx
status — both end in the catch block returning null — as well as a
response without a content array, rejected by the guard at the top of
pollEvents).
-/

namespace SuiEventListener

/-- An upstream event record. Identity is txHash; the remaining fields are
display payload (see the spec's data model and the fields read by the test
client). The timestamp field models a timestamp property the upstream
record may itself carry, which pollEvents overwrites via the object spread. -/
structure NftEvent where
  txHash : String
  eventType : String
  nftName : Option String := none
  latestPrice : Option Int := none
  sellerName : Option String := none
  sellerAddress : Option String := none
  marketplace : Option String := none
  nftImg : Option String := none
  timestamp : Option Nat := none
  deriving Repr, DecidableEq

/-- Server-to-client wire messages, one constructor per message type the
source emits (connection_established, pong, nft_event, fetching_events,
filters_updated, error). -/
inductive ServerMsg where
  | connectionEstablished (clientId message collection : String)
      (pollInterval timestamp : Nat)
  | pong (timestamp : Nat)
  | nftEvent (data : NftEvent)
  | fetchingEvents (timestamp : Nat)
  | filtersUpdated (eventTypes marketplaces : String) (timestamp : Nat)
  | error (message : String)
  deriving Repr, DecidableEq

/-- The hard-coded bound on lastSeenTxHashes in pollEvents
(if (lastSeenTxHashes.size > 1000) ...). -/
def dedupCapacity : Nat := 1000

/-- JS Set.add on the insertion-ordered set of seen hashes: appends the
hash if absent, leaves the set (and the element's position) unchanged if
already present. -/
def addHash (seen : List String) (h : String) : List String :=
  if h ∈ seen then seen else seen ++ [h]

/-- The size-triggered trim in pollEvents: when the set exceeds 1000
entries, Array.from(...).slice(length - 1000) keeps exactly the last 1000
hashes in insertion order. -/
def trimSeen (seen : List String) : List String :=
  if seen.length > dedupCapacity then seen.drop (seen.length - dedupCapacity) else seen

/-- The filter in pollEvents: eventData.content.filter
((event) => !lastSeenTxHashes.has(event.txHash)). -/
def newEventsOf (seen : List String) (content : List NftEvent) : List NftEvent :=
  content.filter (fun e => !(seen.contains e.txHash))

/-- The broadcast payload built in pollEvents:
{ ...event, timestamp: Date.now() } — every field of the upstream record,
with the timestamp property overwritten by the server clock. -/
def envelopeData (e : NftEvent) (now : Nat) : NftEvent :=
  { e with timestamp := some now }

/-- One execution of pollEvents, given the upstream response (none = any
failure path) and the server clock value Date.now() observed while
broadcasting. Returns the new seen-hash state and the list of nft_event
broadcasts, in emission order. -/
def pollCycle (seen : List String) (response : Option (List NftEvent)) (now : Nat) :
    List String × List ServerMsg :=
  match response with
  | none => (seen, [])
  | some content =>
    let newEvents := newEventsOf seen content
    if newEvents.isEmpty then (seen, [])
    else
      let seen1 := newEvents.foldl (fun s e => addHash s e.txHash) seen
      (trimSeen seen1, newEvents.map (fun e => ServerMsg.nftEvent (envelopeData e now)))

/-- A sequence of poll cycles: each element is (upstream response, server
clock at that cycle). Returns the final seen-hash state and the per-cycle
broadcast lists. -/
def runCycles : List String → List (Option (List NftEvent) × Nat) →
    List String × List (List ServerMsg)
  | seen, [] => (seen, [])
  | seen, (r, t) :: rest =>
    let step := pollCycle seen r t
    let next := runCycles step.1 rest
    (next.1, step.2 :: next.2)

/-- The seen-hash state of a cycle after the admit loop
(newEvents.forEach((event) => lastSeenTxHashes.add(event.txHash))) but
before the size-triggered trim. Used to state eviction. -/
def seenAfterInsert (seen : List String) (response : Option (List NftEvent)) : List String :=
  match response with
  | none => seen
  | some content =>
    let newEvents := newEventsOf seen content
    if newEvents.isEmpty then seen
    else newEvents.foldl (fun s e => addHash s e.txHash) seen

/-- The transaction hash carried by an nft_event broadcast, if any. -/
def hashOfMsg : ServerMsg → Option String
  | ServerMsg.nftEvent d => some d.txHash
  | _ => none

/-- The transaction hashes of the nft_event messages in a broadcast list. -/
def broadcastHashes (msgs : List ServerMsg) : List String :=
  msgs.filterMap hashOfMsg

/-- How many times hash h is broadcast over a whole run of poll cycles. -/
def broadcastCount (h : String) (seen : List String)
    (rs : List (Option (List NftEvent) × Nat)) : Nat :=
  (broadcastHashes (runCycles seen rs).2.flatten).count h

/-- Hash h is evicted during a cycle: present after the admit loop,
absent after the size-triggered trim. The trim is the only operation in
the source that ever removes a hash. -/
def evictedInCycle (h : String) (seen : List String)
    (r : Option (List NftEvent)) (t : Nat) : Bool :=
  decide (h ∈ seenAfterInsert seen r) && decide (h ∉ (pollCycle seen r t).1)

/-- Hash h is never evicted over a run of poll cycles starting from the
given seen-hash state. -/
def noEvictionOf (h : String) : List String → List (Option (List NftEvent) × Nat) → Bool
  | _, [] => true
  | seen, (r, t) :: rest =>
    !(evictedInCycle h seen r t) && noEvictionOf h (pollCycle seen r t).1 rest

/-- Every upstream response in the run lists pairwise-distinct txHash
values, as the data model requires (txHash is the unique identifier of an
event record). -/
def responsesDistinct (rs : List (Option (List NftEvent) × Nat)) : Bool :=
  rs.all (fun p =>
    match p.1 with
    | none => true
    | some content => decide ((content.map (fun e => e.txHash)).Nodup))

/-! Connection registry, per-connection sends and broadcast. -/

/-- The ws readyState value WebSocket.OPEN. -/
def wsOPEN : Nat := 1

/-- An entry of the clients map: { id, connection, connectedAt }. The
transport handle is abstracted to its readyState, the only attribute the
source reads. -/
structure Client where
  id : String
  readyState : Nat
  connectedAt : Nat
  deriving Repr, DecidableEq

/-- sendToClient(clientId, message): looks the client up in the map,
sends iff its transport readyState is WebSocket.OPEN, and returns whether
delivery was attempted. The second component lists the (clientId, message)
deliveries actually performed. -/
def sendToClient (clients : List Client) (clientId : String) (message : ServerMsg) :
    Bool × List (String × ServerMsg) :=
  match clients.find? (fun c => c.id == clientId) with
  | some c =>
    if c.readyState == wsOPEN then (true, [(clientId, message)]) else (false, [])
  | none => (false, [])

/-- broadcast(message): walks the clients map in insertion order, sends
the once-serialized message to every connection whose readyState is
WebSocket.OPEN and counts them (activeClients). The JS function body has
no return statement, so its value is undefined: modeled as the final
Option Nat component, always none. Components: (deliveries performed,
activeClients count, return value). -/
def broadcast (clients : List Client) (message : ServerMsg) :
    List (String × ServerMsg) × Nat × Option Nat :=
  let delivered := (clients.filter (fun c => c.readyState == wsOPEN)).map
    (fun c => (c.id, message))
  (delivered, delivered.length, none)

/-! Control protocol: the ws.on("message") handler. -/

/-- A successfully parsed inbound client message, dispatched on its type
tag. The unknown constructor stands for any JSON object whose type is not
ping / get_latest_events / update_filters (the switch falls through). -/
inductive ClientMsg where
  | ping (timestamp : Nat)
  | getLatestEvents
  | updateFilters (eventTypes marketplaces : Option String)
  | unknown
  deriving Repr, DecidableEq

/-- JS truthiness of an optional string field: undefined and the empty
string are falsy. -/
def jsTruthy : Option String → Bool
  | none => false
  | some s => !(s == "")

/-- The JS expression (field || default). -/
def jsOrDefault (o : Option String) (d : String) : String :=
  match o with
  | some s => if s == "" then d else s
  | none => d

/-- The JS default parameters of fetchNftEvents. -/
def defaultEventTypes : String := "List"

/-- The JS default parameter for the marketplaces argument of
fetchNftEvents. -/
def defaultMarketplaces : String := "TradePort"

/-- The outbound request fetchNftEvents builds: query parameters and the
JSON body { eventTypes: [eventTypes], marketplaces: [marketplaces] }. -/
structure FetchRequest where
  page : Nat
  size : Nat
  orderBy : String
  sortBy : String
  eventTypes : List String
  marketplaces : List String
  deriving Repr, DecidableEq

/-- fetchNftEvents(eventTypes, marketplaces, page, size) request shape. -/
def fetchRequest (eventTypes marketplaces : String) (page size : Nat) : FetchRequest :=
  { page := page, size := size, orderBy := "DESC", sortBy := "AGE",
    eventTypes := [eventTypes], marketplaces := [marketplaces] }

/-- The request issued by pollEvents: it invokes fetchNftEvents() with no
arguments, so every cycle uses the JS default parameters
("List", "TradePort", 0, 20) — the filters from update_filters messages
are never threaded into the poll. -/
def pollFetchRequest : FetchRequest :=
  fetchRequest defaultEventTypes defaultMarketplaces 0 20

/-- Result of running the ws.on("message") handler once: the clients map
afterward, the per-connection replies sent (via sendToClient), and the
outbound fetch requests of any pollEvents() call the handler makes. -/
structure HandleResult where
  clients : List Client
  replies : List (String × ServerMsg)
  fetches : List FetchRequest
  deriving Repr, DecidableEq

/-- The ws.on("message") handler of one connection. The parsed argument
is some msg when JSON.parse succeeds (none when it throws, taking the
catch branch). now is the server clock Date.now(). Mirrors the switch in
the source: ping replies pong with Date.now(); get_latest_events calls
pollEvents() then replies fetching_events; update_filters with at least
one truthy filter field replies filters_updated with the resolved values
and calls pollEvents() — no filter state exists to update — and an
unrecognized type falls through the switch with no action. The clients
map is never touched by the handler. -/
def handleMessage (clients : List Client) (clientId : String)
    (parsed : Option ClientMsg) (now : Nat) : HandleResult :=
  match parsed with
  | none =>
    { clients := clients,
      replies := (sendToClient clients clientId
        (ServerMsg.error "Invalid message format. Expected JSON.")).2,
      fetches := [] }
  | some (ClientMsg.ping _ts) =>
    { clients := clients,
      replies := (sendToClient clients clientId (ServerMsg.pong now)).2,
      fetches := [] }
  | some ClientMsg.getLatestEvents =>
    { clients := clients,
      replies := (sendToClient clients clientId (ServerMsg.fetchingEvents now)).2,
      fetches := [pollFetchRequest] }
  | some (ClientMsg.updateFilters et mp) =>
    if jsTruthy et || jsTruthy mp then
      { clients := clients,
        replies := (sendToClient clients clientId
          (ServerMsg.filtersUpdated (jsOrDefault et defaultEventTypes)
            (jsOrDefault mp defaultMarketplaces) now)).2,
        fetches := [pollFetchRequest] }
    else
      { clients := clients, replies := [], fetches := [] }
  | some ClientMsg.unknown =>
    { clients := clients, replies := [], fetches := [] }

/-! Poller concurrency state, as implemented. -/

/-- The observable polling state of the process: how many pollEvents
fetches are currently awaiting their HTTP response, and how many outbound
requests have been issued in total. The source keeps no such state — that
is the point of the single-flight analysis. -/
structure PollerState where
  inFlightFetches : Nat
  outboundRequests : Nat
  deriving Repr, DecidableEq

/-- The idle process before any polling. -/
def initPollerState : PollerState :=
  { inFlightFetches := 0, outboundRequests := 0 }

/-- Effect of any trigger of pollEvents — the initial call in
startEventPolling, a setInterval tick, or the direct calls from the
get_latest_events and update_filters handlers. The source's pollEvents
begins with await fetchNftEvents() unconditionally: there is no
IDLE/IN_FLIGHT flag and no check of any kind before issuing the request,
so every trigger adds one in-flight fetch and one outbound request even
while a previous fetch is still pending. -/
def triggerPoll (s : PollerState) : PollerState :=
  { inFlightFetches := s.inFlightFetches + 1,
    outboundRequests := s.outboundRequests + 1 }

/-- A pending fetch resolves (successfully or not). -/
def resolveFetch (s : PollerState) : PollerState :=
  { s with inFlightFetches := s.inFlightFetches - 1 }

/-! Concrete example data used by witnesses. -/

/-- An event record with only the mandatory fields, used to build
concrete runs. -/
def evOf (h : String) : NftEvent :=
  { txHash := h, eventType := "List" }

/-- Build one successful response per batch of hashes, at clock 0. -/
def eventsOf (hs : List String) : List NftEvent :=
  hs.map evOf

/-- Turn batches of fresh hashes into a run of successful upstream
responses. -/
def responsesOf (batches : List (List String)) : List (Option (List NftEvent) × Nat) :=
  batches.map (fun b => (some (eventsOf b), 0))

/-- Shorthand for the suffix of length dedupCapacity (the whole list when
shorter): what the size-triggered trim retains. -/
def lastC (xs : List String) : List String :=
  xs.drop (xs.length - dedupCapacity)

/-! Helper lemmas about the dedup window. -/

theorem pollCycle_some (seen : List String) (content : List NftEvent) (now : Nat) :
    pollCycle seen (some content) now =
      if (newEventsOf seen content).isEmpty then (seen, [])
      else (trimSeen ((newEventsOf seen content).foldl (fun s e => addHash s e.txHash) seen),
        (newEventsOf seen content).map (fun e => ServerMsg.nftEvent (envelopeData e now))) := rfl

theorem seenAfterInsert_some (seen : List String) (content : List NftEvent) :
    seenAfterInsert seen (some content) =
      if (newEventsOf seen content).isEmpty then seen
      else (newEventsOf seen content).foldl (fun s e => addHash s e.txHash) seen := rfl

theorem mem_addHash {x h : String} {seen : List String} :
    x ∈ addHash seen h ↔ x ∈ seen ∨ x = h := by
  unfold addHash
  by_cases hm : h ∈ seen
  · rw [if_pos hm]
    constructor
    · exact Or.inl
    · rintro (hx | rfl)
      · exact hx
      · exact hm
  · rw [if_neg hm]
    simp

theorem mem_foldl_addHash (hs : List String) :
    ∀ (seen : List String) (x : String),
      x ∈ hs.foldl addHash seen ↔ x ∈ seen ∨ x ∈ hs := by
  induction hs with
  | nil => intro seen x; simp
  | cons a hs ih =>
    intro seen x
    rw [List.foldl_cons, ih, mem_addHash]
    simp [or_assoc]

theorem foldl_addHash_eq_append (hs : List String) :
    ∀ seen : List String, (∀ x ∈ hs, x ∉ seen) → hs.Nodup →
      hs.foldl addHash seen = seen ++ hs := by
  induction hs with
  | nil => intro seen _ _; simp
  | cons a hs ih =>
    intro seen hfresh hnd
    have ha : a ∉ seen := hfresh a (List.mem_cons_self a hs)
    have h1 : addHash seen a = seen ++ [a] := by rw [addHash, if_neg ha]
    have hfresh' : ∀ x ∈ hs, x ∉ seen ++ [a] := by
      intro x hx
      simp only [List.mem_append, List.mem_singleton]
      rintro (hxs | rfl)
      · exact hfresh x (List.mem_cons_of_mem a hx) hxs
      · exact (List.nodup_cons.mp hnd).1 hx
    rw [List.foldl_cons, h1, ih (seen ++ [a]) hfresh' (List.Nodup.of_cons hnd)]
    simp

theorem mem_newEventsOf {e : NftEvent} {seen : List String} {content : List NftEvent} :
    e ∈ newEventsOf seen content ↔ e ∈ content ∧ e.txHash ∉ seen := by
  unfold newEventsOf
  simp [List.mem_filter]

theorem broadcastHashes_append (l₁ l₂ : List ServerMsg) :
    broadcastHashes (l₁ ++ l₂) = broadcastHashes l₁ ++ broadcastHashes l₂ := by
  unfold broadcastHashes
  exact List.filterMap_append l₁ l₂ hashOfMsg

theorem broadcastHashes_map_nftEvent (l : List NftEvent) (now : Nat) :
    broadcastHashes (l.map (fun e => ServerMsg.nftEvent (envelopeData e now)))
      = l.map (fun e => e.txHash) := by
  induction l with
  | nil => rfl
  | cons e l ih =>
    simp only [List.map_cons, broadcastHashes, List.filterMap_cons] at ih ⊢
    rw [show hashOfMsg (ServerMsg.nftEvent (envelopeData e now)) = some e.txHash from rfl]
    rw [ih]

theorem broadcastHashes_cycle (seen : List String) (content : List NftEvent) (now : Nat) :
    broadcastHashes (pollCycle seen (some content) now).2
      = (newEventsOf seen content).map (fun e => e.txHash) := by
  rw [pollCycle_some]
  by_cases he : (newEventsOf seen content).isEmpty
  · rw [if_pos he]
    rw [List.isEmpty_iff.mp he]
    rfl
  · rw [if_neg he]
    exact broadcastHashes_map_nftEvent _ now

theorem runCycles_cons (seen : List String) (r : Option (List NftEvent)) (t : Nat)
    (rest : List (Option (List NftEvent) × Nat)) :
    runCycles seen ((r, t) :: rest)
      = ((runCycles (pollCycle seen r t).1 rest).1,
         (pollCycle seen r t).2 :: (runCycles (pollCycle seen r t).1 rest).2) := rfl

theorem runCycles_nil (seen : List String) : runCycles seen [] = (seen, []) := rfl

theorem broadcastCount_nil (h : String) (seen : List String) :
    broadcastCount h seen [] = 0 := rfl

theorem broadcastCount_cons (h : String) (seen : List String)
    (r : Option (List NftEvent)) (t : Nat) (rest : List (Option (List NftEvent) × Nat)) :
    broadcastCount h seen ((r, t) :: rest)
      = (broadcastHashes (pollCycle seen r t).2).count h
        + broadcastCount h (pollCycle seen r t).1 rest := by
  unfold broadcastCount
  rw [runCycles_cons, List.flatten_cons, broadcastHashes_append, List.count_append]

theorem cycleCount_of_mem (h : String) (seen : List String)
    (r : Option (List NftEvent)) (t : Nat) (hmem : h ∈ seen) :
    (broadcastHashes (pollCycle seen r t).2).count h = 0 := by
  cases r with
  | none => rfl
  | some content =>
    rw [broadcastHashes_cycle, List.count_eq_zero]
    intro hcon
    obtain ⟨e, he, rfl⟩ := List.mem_map.mp hcon
    exact (mem_newEventsOf.mp he).2 hmem

theorem cycleCount_le_one (h : String) (seen : List String) (content : List NftEvent)
    (t : Nat) (hnd : (content.map (fun e => e.txHash)).Nodup) :
    (broadcastHashes (pollCycle seen (some content) t).2).count h ≤ 1 := by
  rw [broadcastHashes_cycle]
  have hsub : List.Sublist ((newEventsOf seen content).map (fun e => e.txHash))
      (content.map (fun e => e.txHash)) :=
    (List.filter_sublist content).map (fun e => e.txHash)
  calc ((newEventsOf seen content).map (fun e => e.txHash)).count h
      ≤ (content.map (fun e => e.txHash)).count h := hsub.count_le h
    _ ≤ 1 := List.nodup_iff_count_le_one.mp hnd h

theorem mem_seenAfterInsert_of_count_pos (h : String) (seen : List String)
    (r : Option (List NftEvent)) (t : Nat)
    (hc : 0 < (broadcastHashes (pollCycle seen r t).2).count h) :
    h ∈ seenAfterInsert seen r := by
  cases r with
  | none => exact absurd hc (by simp [pollCycle, broadcastHashes])
  | some content =>
    rw [broadcastHashes_cycle] at hc
    have hmem := List.count_pos_iff.mp hc
    obtain ⟨e, he, rfl⟩ := List.mem_map.mp hmem
    rw [seenAfterInsert_some]
    have hne : ¬(newEventsOf seen content).isEmpty := by
      intro hE
      rw [List.isEmpty_iff.mp hE] at he
      exact absurd he (List.not_mem_nil e)
    rw [if_neg hne, ← List.foldl_map (fun e : NftEvent => e.txHash) addHash,
      mem_foldl_addHash]
    exact Or.inr (List.mem_map_of_mem _ he)

theorem mem_seenAfterInsert_of_mem {h : String} {seen : List String}
    (r : Option (List NftEvent)) (hm : h ∈ seen) :
    h ∈ seenAfterInsert seen r := by
  cases r with
  | none => exact hm
  | some content =>
    rw [seenAfterInsert_some]
    by_cases he : (newEventsOf seen content).isEmpty
    · rw [if_pos he]; exact hm
    · rw [if_neg he, ← List.foldl_map (fun e : NftEvent => e.txHash) addHash,
        mem_foldl_addHash]
      exact Or.inl hm

theorem broadcastCount_aux (h : String) :
    ∀ (rs : List (Option (List NftEvent) × Nat)) (seen : List String),
      responsesDistinct rs = true → noEvictionOf h seen rs = true →
      (h ∈ seen → broadcastCount h seen rs = 0) ∧ broadcastCount h seen rs ≤ 1 := by
  intro rs
  induction rs with
  | nil =>
    intro seen _ _
    exact ⟨fun _ => rfl, by rw [broadcastCount_nil]; omega⟩
  | cons p rest ih =>
    obtain ⟨r, t⟩ := p
    intro seen hdist hnoev
    simp only [responsesDistinct, List.all_cons, Bool.and_eq_true] at hdist
    obtain ⟨hdist1, hdistrest⟩ := hdist
    simp only [noEvictionOf, Bool.and_eq_true, Bool.not_eq_true'] at hnoev
    obtain ⟨hne1, hne2⟩ := hnoev
    have hpersist : h ∈ seenAfterInsert seen r → h ∈ (pollCycle seen r t).1 := by
      intro hin
      by_contra hnot
      have hev : evictedInCycle h seen r t = true := by
        simp [evictedInCycle, hin, hnot]
      rw [hev] at hne1
      exact absurd hne1 (by simp)
    have hIH := ih (pollCycle seen r t).1 hdistrest hne2
    have hc1 : (broadcastHashes (pollCycle seen r t).2).count h ≤ 1 := by
      cases r with
      | none => simp [pollCycle, broadcastHashes]
      | some content =>
        have hnd : (content.map (fun e => e.txHash)).Nodup := by
          simpa using hdist1
        exact cycleCount_le_one h seen content t hnd
    rw [broadcastCount_cons]
    constructor
    · intro hmem
      rw [cycleCount_of_mem h seen r t hmem,
        hIH.1 (hpersist (mem_seenAfterInsert_of_mem r hmem))]
    · by_cases hmem : h ∈ seen
      · rw [cycleCount_of_mem h seen r t hmem,
          hIH.1 (hpersist (mem_seenAfterInsert_of_mem r hmem))]
        omega
      · rcases Nat.eq_zero_or_pos ((broadcastHashes (pollCycle seen r t).2).count h) with
          h0 | hpos
        · rw [h0]
          have := hIH.2
          omega
        · have hafter := mem_seenAfterInsert_of_count_pos h seen r t hpos
          have hrest0 := hIH.1 (hpersist hafter)
          omega

/-- C2: at-most-once broadcast per event identity. Over any run of poll
cycles starting from the empty dedup window, provided every upstream
response carries pairwise-distinct txHash values (the data-model premise
that txHash is the unique event identifier), a txHash that is never
evicted by the size-triggered trim is broadcast at most once over the
whole run; in particular a cycle whose response repeats an already-seen
txHash broadcasts nothing for it. -/
theorem txHash_broadcast_at_most_once (rs : List (Option (List NftEvent) × Nat))
    (h : String) (hdist : responsesDistinct rs = true)
    (hnoev : noEvictionOf h [] rs = true) :
    broadcastCount h [] rs ≤ 1 :=
  (broadcastCount_aux h rs [] hdist hnoev).2

/-- Witness for C2 on the spec's own scenario: cycle 1 returns events a
and b, cycle 2 returns a and c; a is broadcast exactly once in total. -/
theorem txHash_broadcast_at_most_once_witness :
    responsesDistinct [(some [evOf "a", evOf "b"], 5), (some [evOf "a", evOf "c"], 6)] = true ∧
    noEvictionOf "a" [] [(some [evOf "a", evOf "b"], 5), (some [evOf "a", evOf "c"], 6)] = true ∧
    broadcastCount "a" [] [(some [evOf "a", evOf "b"], 5), (some [evOf "a", evOf "c"], 6)] = 1 ∧
    broadcastCount "a" [] [(some [evOf "a", evOf "b"], 5), (some [evOf "a", evOf "c"], 6)] ≤ 1 :=
  ⟨by decide, by decide, by decide,
    txHash_broadcast_at_most_once _ "a" (by decide) (by decide)⟩

theorem trimSeen_eq_lastC (xs : List String) : trimSeen xs = lastC xs := by
  unfold trimSeen lastC
  by_cases hlt : xs.length > dedupCapacity
  · rw [if_pos hlt]
  · rw [if_neg hlt]
    have h0 : xs.length - dedupCapacity = 0 := by omega
    rw [h0, List.drop_zero]

theorem lastC_append_left (xs ys : List String) :
    lastC (lastC xs ++ ys) = lastC (xs ++ ys) := by
  rcases le_or_lt xs.length dedupCapacity with hle | hlt
  · have h0 : xs.length - dedupCapacity = 0 := by omega
    simp [lastC, h0]
  · have hd : xs.length - dedupCapacity ≤ xs.length := Nat.sub_le _ _
    unfold lastC
    have h1 : xs.drop (xs.length - dedupCapacity) ++ ys
        = (xs ++ ys).drop (xs.length - dedupCapacity) :=
      (List.drop_append_of_le_length hd).symm
    rw [h1, List.drop_drop]
    have harg : xs.length - dedupCapacity
        + (((xs ++ ys).drop (xs.length - dedupCapacity)).length - dedupCapacity)
        = (xs ++ ys).length - dedupCapacity := by
      simp only [List.length_drop, List.length_append]
      omega
    rw [harg]

theorem length_pollCycle_le (seen : List String) (r : Option (List NftEvent)) (t : Nat)
    (hlen : seen.length ≤ dedupCapacity) :
    ((pollCycle seen r t).1).length ≤ dedupCapacity := by
  cases r with
  | none => exact hlen
  | some content =>
    rw [pollCycle_some]
    by_cases he : (newEventsOf seen content).isEmpty
    · rw [if_pos he]; exact hlen
    · rw [if_neg he]
      show (trimSeen _).length ≤ dedupCapacity
      rw [trimSeen_eq_lastC]
      unfold lastC
      rw [List.length_drop]
      omega

theorem length_runCycles_le (rs : List (Option (List NftEvent) × Nat)) :
    ∀ seen : List String, seen.length ≤ dedupCapacity →
      ((runCycles seen rs).1).length ≤ dedupCapacity := by
  induction rs with
  | nil => intro seen h; exact h
  | cons p rest ih =>
    obtain ⟨r, t⟩ := p
    intro seen h
    rw [runCycles_cons]
    exact ih _ (length_pollCycle_le seen r t h)

theorem eventsOf_txHash (hs : List String) :
    (eventsOf hs).map (fun e => e.txHash) = hs := by
  unfold eventsOf
  rw [List.map_map]
  have hcomp : ((fun e : NftEvent => e.txHash) ∘ evOf) = id := funext fun h => rfl
  rw [hcomp, List.map_id]

theorem newEventsOf_of_fresh (seen : List String) (content : List NftEvent)
    (hfresh : ∀ e ∈ content, e.txHash ∉ seen) :
    newEventsOf seen content = content := by
  unfold newEventsOf
  apply List.filter_eq_self.mpr
  intro e he
  simpa using hfresh e he

theorem runCycles_responsesOf_aux :
    ∀ (batches : List (List String)) (acc : List String),
      (acc ++ batches.flatten).Nodup →
      (runCycles (lastC acc) (responsesOf batches)).1 = lastC (acc ++ batches.flatten) := by
  intro batches
  induction batches with
  | nil =>
    intro acc _
    simp only [List.flatten_nil, List.append_nil]
    rw [show responsesOf [] = [] from rfl, runCycles_nil]
  | cons b rest ih =>
    intro acc hnd
    have hdisj : ∀ x ∈ b, x ∉ acc := by
      have hd := List.disjoint_of_nodup_append hnd
      intro x hx hxa
      exact hd hxa (by rw [List.flatten_cons]; exact List.mem_append_left _ hx)
    have hbnd : b.Nodup := by
      have h2 := hnd.of_append_right
      rw [List.flatten_cons] at h2
      exact h2.of_append_left
    have hfresh : ∀ e ∈ eventsOf b, e.txHash ∉ lastC acc := by
      intro e he hmem
      obtain ⟨x, hx, rfl⟩ := List.mem_map.mp he
      exact hdisj x hx (List.drop_subset _ _ hmem)
    have hnew : newEventsOf (lastC acc) (eventsOf b) = eventsOf b :=
      newEventsOf_of_fresh _ _ hfresh
    rw [show responsesOf (b :: rest) = (some (eventsOf b), 0) :: responsesOf rest from rfl,
      runCycles_cons, pollCycle_some, hnew]
    by_cases hbe : (eventsOf b).isEmpty
    · have hb : b = [] := by
        have := List.isEmpty_iff.mp hbe
        unfold eventsOf at this
        exact List.map_eq_nil_iff.mp this
      rw [if_pos hbe]
      subst hb
      simp only [List.flatten_cons, List.nil_append]
      simp only [List.flatten_cons, List.nil_append] at hnd
      exact ih acc hnd
    · rw [if_neg hbe]
      have hfoldl : (eventsOf b).foldl (fun s e => addHash s e.txHash) (lastC acc)
          = lastC acc ++ b := by
        rw [← List.foldl_map (fun e : NftEvent => e.txHash) addHash, eventsOf_txHash]
        apply foldl_addHash_eq_append b (lastC acc) ?_ hbnd
        intro x hx hmem
        exact hdisj x hx (List.drop_subset _ _ hmem)
      show (runCycles (trimSeen _) (responsesOf rest)).1 = _
      rw [hfoldl, trimSeen_eq_lastC, lastC_append_left]
      have hnd' : ((acc ++ b) ++ rest.flatten).Nodup := by
        rw [List.append_assoc]
        rwa [List.flatten_cons] at hnd
      rw [ih (acc ++ b) hnd']
      rw [List.flatten_cons, List.append_assoc]

/-- C3: dedup window capacity invariant. First, from any state within
capacity, every run of poll cycles keeps the window at no more than
C = 1000 hashes. Second, inserting any number of globally distinct ids
from the empty window (in insertion order, across any partition into poll
batches) leaves exactly the last C of them, oldest-first. Third, the
window after a cycle does not depend on the clock: eviction is
size-triggered, never time-triggered. -/
theorem dedup_window_invariant :
    (∀ (seen : List String) (rs : List (Option (List NftEvent) × Nat)),
      seen.length ≤ dedupCapacity → ((runCycles seen rs).1).length ≤ dedupCapacity) ∧
    (∀ batches : List (List String), batches.flatten.Nodup →
      (runCycles [] (responsesOf batches)).1
        = batches.flatten.drop (batches.flatten.length - dedupCapacity)) ∧
    (∀ (seen : List String) (r : Option (List NftEvent)) (t₁ t₂ : Nat),
      (pollCycle seen r t₁).1 = (pollCycle seen r t₂).1) := by
  refine ⟨fun seen rs h => length_runCycles_le rs seen h, ?_, ?_⟩
  · intro batches hnd
    have h0 : ([] : List String) = lastC [] := rfl
    rw [h0, runCycles_responsesOf_aux batches [] (by simpa using hnd)]
    simp [lastC]
  · intro seen r t₁ t₂
    cases r with
    | none => rfl
    | some content =>
      rw [pollCycle_some, pollCycle_some]
      by_cases he : (newEventsOf seen content).isEmpty
      · rw [if_pos he, if_pos he]
      · rw [if_neg he, if_neg he]

/-- Witness for C3: a concrete run stays within capacity; three distinct
ids inserted over two batches from the empty window are all retained in
insertion order (their count is below C, so the drop keeps everything);
and a cycle's resulting window is clock-independent. -/
theorem dedup_window_invariant_witness :
    ((runCycles [] [(some [evOf "a"], 3)]).1).length ≤ dedupCapacity ∧
    (runCycles [] (responsesOf [["a", "b"], ["c"]])).1
      = ([["a", "b"], ["c"]] : List (List String)).flatten.drop
          (([["a", "b"], ["c"]] : List (List String)).flatten.length - dedupCapacity) ∧
    (pollCycle ["a"] (some [evOf "b"]) 1).1 = (pollCycle ["a"] (some [evOf "b"]) 2).1 :=
  ⟨dedup_window_invariant.1 [] [(some [evOf "a"], 3)] (by decide),
   dedup_window_invariant.2.1 [["a", "b"], ["c"]] (by decide),
   dedup_window_invariant.2.2 ["a"] (some [evOf "b"]) 1 2⟩

theorem pollCycle_broadcasts_eq (seen : List String) (content : List NftEvent) (now : Nat) :
    (pollCycle seen (some content) now).2
      = (newEventsOf seen content).map (fun e => ServerMsg.nftEvent (envelopeData e now)) := by
  rw [pollCycle_some]
  by_cases he : (newEventsOf seen content).isEmpty
  · rw [if_pos he, List.isEmpty_iff.mp he]; rfl
  · rw [if_neg he]

/-- C7: within one successful poll cycle, the messages broadcast are
exactly the admitted (fresh) records wrapped as nft_event envelopes, in
the order the upstream response listed them, and the broadcast txHash
sequence is a sublist of the upstream txHash sequence — no reordering and
no reversal. -/
theorem broadcasts_in_upstream_order (seen : List String) (content : List NftEvent)
    (now : Nat) :
    (pollCycle seen (some content) now).2
      = (newEventsOf seen content).map (fun e => ServerMsg.nftEvent (envelopeData e now)) ∧
    broadcastHashes (pollCycle seen (some content) now).2
      = (newEventsOf seen content).map (fun e => e.txHash) ∧
    List.Sublist (broadcastHashes (pollCycle seen (some content) now).2)
      (content.map (fun e => e.txHash)) := by
  refine ⟨pollCycle_broadcasts_eq seen content now, broadcastHashes_cycle seen content now, ?_⟩
  rw [broadcastHashes_cycle]
  exact (List.filter_sublist content).map (fun e => e.txHash)

theorem pollCycle_none_eq (seen : List String) (now : Nat) :
    pollCycle seen none now = (seen, []) := rfl

theorem runCycles_replicate_none (t : Nat) :
    ∀ (n : Nat) (seen : List String),
      runCycles seen (List.replicate n ((none : Option (List NftEvent)), t))
        = (seen, List.replicate n []) := by
  intro n
  induction n with
  | zero => intro seen; rfl
  | succ n ih =>
    intro seen
    rw [List.replicate_succ, runCycles_cons]
    simp only [pollCycle_none_eq]
    rw [ih seen, List.replicate_succ]

theorem runCycles_append (rs₁ rs₂ : List (Option (List NftEvent) × Nat)) :
    ∀ seen, runCycles seen (rs₁ ++ rs₂)
      = ((runCycles (runCycles seen rs₁).1 rs₂).1,
         (runCycles seen rs₁).2 ++ (runCycles (runCycles seen rs₁).1 rs₂).2) := by
  induction rs₁ with
  | nil =>
    intro seen
    rw [List.nil_append, runCycles_nil]
    rfl
  | cons p rest ih =>
    obtain ⟨r, t⟩ := p
    intro seen
    rw [List.cons_append, runCycles_cons, ih, runCycles_cons]
    rfl

theorem pollCycle_single_fresh (seen : List String) (e : NftEvent) (now : Nat)
    (hfresh : e.txHash ∉ seen) :
    (pollCycle seen (some [e]) now).2 = [ServerMsg.nftEvent (envelopeData e now)] := by
  rw [pollCycle_broadcasts_eq, newEventsOf_of_fresh seen [e] ?_]
  · rfl
  · intro x hx
    rw [List.mem_singleton] at hx
    subst hx
    exact hfresh

theorem flatten_replicate_nil (n : Nat) :
    (List.replicate n ([] : List ServerMsg)).flatten = [] := by
  induction n with
  | zero => rfl
  | succ n ih => rw [List.replicate_succ, List.flatten_cons, List.nil_append, ih]

/-- C8: fetch-failure atomicity and resilience. A failed or malformed
upstream fetch leaves the dedup window unchanged and broadcasts nothing
(the cycle is a no-op), and after any number n of consecutive failed
cycles, a successful fetch carrying one fresh event produces exactly one
broadcast in the whole run. -/
theorem fetch_failure_atomicity :
    (∀ (seen : List String) (now : Nat),
      pollCycle seen (none : Option (List NftEvent)) now = (seen, [])) ∧
    (∀ (seen : List String) (e : NftEvent) (n tf now : Nat), e.txHash ∉ seen →
      ((runCycles seen
          (List.replicate n ((none : Option (List NftEvent)), tf) ++ [(some [e], now)])).2).flatten
        = [ServerMsg.nftEvent (envelopeData e now)]) := by
  constructor
  · intro seen now
    rfl
  · intro seen e n tf now hfresh
    rw [runCycles_append, runCycles_replicate_none]
    simp only [List.flatten_append, flatten_replicate_nil, List.nil_append]
    rw [runCycles_cons, runCycles_nil]
    simp only [List.flatten_cons, List.flatten_nil, List.append_nil]
    exact pollCycle_single_fresh seen e now hfresh

/-- Witness for C8: two failed fetches, then a success with one fresh
event, starting from the empty window — exactly one broadcast results. -/
theorem fetch_failure_atomicity_witness :
    ((evOf "d").txHash ∉ ([] : List String)) ∧
    ((runCycles []
        (List.replicate 2 ((none : Option (List NftEvent)), 1) ++ [(some [evOf "d"], 7)])).2).flatten
      = [ServerMsg.nftEvent (envelopeData (evOf "d") 7)] :=
  ⟨by decide, fetch_failure_atomicity.2 [] (evOf "d") 2 1 7 (by decide)⟩

/-- C10: every nft_event envelope built by a poll cycle carries
data.timestamp equal to the server clock at broadcast, overwriting any
timestamp the upstream record carried, while every other upstream field
is passed through unchanged. -/
theorem nft_event_timestamp_overwritten :
    (∀ (e : NftEvent) (now : Nat),
      (envelopeData e now).timestamp = some now ∧
      (envelopeData e now).txHash = e.txHash ∧
      (envelopeData e now).eventType = e.eventType ∧
      (envelopeData e now).nftName = e.nftName ∧
      (envelopeData e now).latestPrice = e.latestPrice ∧
      (envelopeData e now).sellerName = e.sellerName ∧
      (envelopeData e now).sellerAddress = e.sellerAddress ∧
      (envelopeData e now).marketplace = e.marketplace ∧
      (envelopeData e now).nftImg = e.nftImg) ∧
    (∀ (seen : List String) (content : List NftEvent) (now : Nat)
      (m : ServerMsg), m ∈ (pollCycle seen (some content) now).2 →
      ∃ e ∈ content, m = ServerMsg.nftEvent (envelopeData e now)) := by
  constructor
  · intro e now
    exact ⟨rfl, rfl, rfl, rfl, rfl, rfl, rfl, rfl, rfl⟩
  · intro seen content now m hm
    rw [pollCycle_broadcasts_eq] at hm
    obtain ⟨e, he, rfl⟩ := List.mem_map.mp hm
    exact ⟨e, (mem_newEventsOf.mp he).1, rfl⟩

/-- Witness for C10 on an upstream record that itself carries a
timestamp (42): the envelope replaces it with the broadcast clock 7. -/
theorem nft_event_timestamp_overwritten_witness :
    (envelopeData { txHash := "x", eventType := "Sale", timestamp := some 42 } 7).timestamp
      = some 7 ∧
    ∃ e ∈ [({ txHash := "x", eventType := "Sale", timestamp := some 42 } : NftEvent)],
      ServerMsg.nftEvent
          (envelopeData { txHash := "x", eventType := "Sale", timestamp := some 42 } 7)
        = ServerMsg.nftEvent (envelopeData e 7) :=
  ⟨(nft_event_timestamp_overwritten.1 _ 7).1,
   nft_event_timestamp_overwritten.2 [] [{ txHash := "x", eventType := "Sale", timestamp := some 42 }]
     7 _ (by decide)⟩

/-- C1 (divergence evaluation): the source keeps no IDLE/IN_FLIGHT state
and pollEvents awaits fetchNftEvents unconditionally, so a trigger that
arrives while one fetch is still in flight issues a second outbound
request: after two triggers with no resolution in between, two fetches
are in flight and two outbound requests have been made — outbound
concurrency is not bounded by 1 and the second trigger is not a no-op. -/
theorem no_single_flight_guard :
    (triggerPoll initPollerState).inFlightFetches = 1 ∧
    (triggerPoll (triggerPoll initPollerState)).inFlightFetches = 2 ∧
    (triggerPoll (triggerPoll initPollerState)).outboundRequests = 2 :=
  ⟨rfl, rfl, rfl⟩

/-- C4 (divergence evaluation): an update_filters message carrying
eventTypes "Sale" is acknowledged with filters_updated "Sale" and
triggers an immediate poll, but the poll's outbound request still carries
the default filters eventTypes = \x5b"List"\x5d — the handler stores the new
filters nowhere and pollEvents always calls fetchNftEvents with no
arguments, so the updated filters never take effect. -/
theorem update_filters_never_take_effect :
    (handleMessage [{ id := "c1", readyState := wsOPEN, connectedAt := 0 }] "c1"
        (some (ClientMsg.updateFilters (some "Sale") none)) 99).replies
      = [("c1", ServerMsg.filtersUpdated "Sale" "TradePort" 99)] ∧
    (handleMessage [{ id := "c1", readyState := wsOPEN, connectedAt := 0 }] "c1"
        (some (ClientMsg.updateFilters (some "Sale") none)) 99).fetches
      = [pollFetchRequest] ∧
    pollFetchRequest.eventTypes = ["List"] ∧
    pollFetchRequest.eventTypes ≠ ["Sale"] := by
  refine ⟨by decide, by decide, rfl, by decide⟩

/-- C5 (divergence evaluation): a ping carrying client timestamp 1000,
handled when the server clock Date.now() reads 2000, is answered with
pong timestamp 2000 — the server's own clock, not an echo of the
client-sent 1000. -/
theorem pong_timestamp_regenerated :
    (handleMessage [{ id := "c1", readyState := wsOPEN, connectedAt := 0 }] "c1"
        (some (ClientMsg.ping 1000)) 2000).replies
      = [("c1", ServerMsg.pong 2000)] ∧
    ServerMsg.pong 2000 ≠ ServerMsg.pong 1000 := by
  refine ⟨by decide, by decide⟩

/-- C6 counterexample: with one open registered connection, broadcast
performs one successful send and counts it, but its return value is
undefined (the JS function body has no return statement), not the count
1 that the claim asserts. -/
theorem broadcast_returns_no_count :
    (broadcast [{ id := "c1", readyState := wsOPEN, connectedAt := 0 }]
        (ServerMsg.pong 1)).2.1 = 1 ∧
    (broadcast [{ id := "c1", readyState := wsOPEN, connectedAt := 0 }]
        (ServerMsg.pong 1)).2.2 = none ∧
    (broadcast [{ id := "c1", readyState := wsOPEN, connectedAt := 0 }]
        (ServerMsg.pong 1)).2.2
      ≠ some ((broadcast [{ id := "c1", readyState := wsOPEN, connectedAt := 0 }]
        (ServerMsg.pong 1)).2.1) := by
  refine ⟨rfl, rfl, by decide⟩

/-- C6 (amended): broadcast(message) delivers the single serialized
message exactly to the registered connections whose transport readyState
is WebSocket.OPEN at call time, in registry order, silently skipping all
others; it counts the successful sends (logging the count) but returns no
value. -/
theorem broadcast_delivers_to_open_connections (clients : List Client) (m : ServerMsg) :
    (broadcast clients m).1
      = (clients.filter (fun c => c.readyState == wsOPEN)).map (fun c => (c.id, m)) ∧
    (∀ p ∈ (broadcast clients m).1,
      p.2 = m ∧ ∃ c ∈ clients, c.id = p.1 ∧ c.readyState = wsOPEN) ∧
    (∀ c ∈ clients, c.readyState = wsOPEN → (c.id, m) ∈ (broadcast clients m).1) ∧
    (broadcast clients m).2.1 = (clients.filter (fun c => c.readyState == wsOPEN)).length ∧
    (broadcast clients m).2.2 = none := by
  refine ⟨rfl, ?_, ?_, ?_, rfl⟩
  · intro p hp
    obtain ⟨c, hc, rfl⟩ := List.mem_map.mp hp
    have hcf := List.mem_filter.mp hc
    refine ⟨rfl, c, hcf.1, rfl, ?_⟩
    simpa using hcf.2
  · intro c hc hopen
    apply List.mem_map_of_mem
    exact List.mem_filter.mpr ⟨hc, by simp [hopen]⟩
  · show ((clients.filter (fun c => c.readyState == wsOPEN)).map (fun c => (c.id, m))).length = _
    rw [List.length_map]

/-- Witness for C6 (amended): in a registry with one open and one closed
connection, the open one receives the broadcast. -/
theorem broadcast_delivers_to_open_connections_witness :
    ("c1", ServerMsg.pong 5)
      ∈ (broadcast [{ id := "c1", readyState := 1, connectedAt := 0 },
          { id := "c2", readyState := 3, connectedAt := 0 }] (ServerMsg.pong 5)).1 :=
  (broadcast_delivers_to_open_connections _ _).2.2.1
    { id := "c1", readyState := 1, connectedAt := 0 } (by decide) rfl

/-- C9: a syntactically valid message with an unrecognized type gets no
reply, triggers no poll, and leaves the clients registry untouched; a
malformed (non-JSON) payload leaves the registry untouched, triggers no
poll, and — when the sender is registered with an open transport — gets
exactly the single fixed error reply, to that connection only. -/
theorem message_dispatch_unknown_and_malformed (clients : List Client) (cid : String)
    (now : Nat) :
    (handleMessage clients cid (some ClientMsg.unknown) now).replies = [] ∧
    (handleMessage clients cid (some ClientMsg.unknown) now).fetches = [] ∧
    (handleMessage clients cid (some ClientMsg.unknown) now).clients = clients ∧
    (handleMessage clients cid none now).clients = clients ∧
    (handleMessage clients cid none now).fetches = [] ∧
    (∀ cl : Client, clients.find? (fun c => c.id == cid) = some cl → cl.readyState = wsOPEN →
      (handleMessage clients cid none now).replies
        = [(cid, ServerMsg.error "Invalid message format. Expected JSON.")]) := by
  refine ⟨rfl, rfl, rfl, rfl, rfl, ?_⟩
  intro cl hfind hopen
  show (sendToClient clients cid _).2 = _
  unfold sendToClient
  rw [hfind]
  simp [hopen]

/-- Witness for C9: a registered open connection that sends a malformed
payload receives the fixed error reply. -/
theorem message_dispatch_unknown_and_malformed_witness :
    (handleMessage [{ id := "c1", readyState := 1, connectedAt := 0 }] "c1" none 5).replies
      = [("c1", ServerMsg.error "Invalid message format. Expected JSON.")] :=
  (message_dispatch_unknown_and_malformed _ "c1" 5).2.2.2.2.2
    { id := "c1", readyState := 1, connectedAt := 0 } (by decide) rfl

end SuiEventListener
